import Mathlib

/-!
Verification of the phy cluster-store and view-utility specification.

Arrays are modelled as Lean lists of rationals (`List ℚ` for vectors,
`List (List ℚ)` for 2-D arrays, one inner list per row).  NumPy float
arithmetic is modelled with exact rational arithmetic.
-/

set_option maxRecDepth 100000

namespace Phy

/-- Default color map for the selected clusters, from
`phy/cluster/manual/views.py` (`_COLORMAP`). -/
def _COLORMAP : List (List ℚ) :=
  [[8, 146, 252],
   [255, 2, 2],
   [240, 253, 2],
   [228, 31, 228],
   [2, 217, 2],
   [255, 147, 2],
   [212, 150, 70],
   [205, 131, 201],
   [201, 172, 36],
   [150, 179, 62],
   [95, 188, 122],
   [129, 173, 190],
   [231, 107, 119]]

/-- `_selected_clusters_colors` from `phy/cluster/manual/views.py`:
when `n_clusters` exceeds the colormap size the colormap is tiled
`1 + n_clusters / len(_COLORMAP)` times; the first `n_clusters` rows are
kept and divided by 255. -/
def _selected_clusters_colors (n_clusters : Nat) : List (List ℚ) :=
  if n_clusters > _COLORMAP.length then
    ((List.replicate (1 + n_clusters / _COLORMAP.length) _COLORMAP).flatten.take
      n_clusters).map (fun r => r.map (fun x => x / 255))
  else
    (_COLORMAP.take n_clusters).map (fun r => r.map (fun x => x / 255))

theorem join_replicate_get? {α : Type} (l : List α) (m i : Nat)
    (h : i < m * l.length) :
    ((List.replicate m l).flatten).get? i = l.get? (i % l.length) := by
  induction m generalizing i with
  | zero => simp at h
  | succ m ih =>
    rw [List.replicate_succ, List.flatten_cons]
    have h' : i < m * l.length + l.length := by
      rw [Nat.succ_mul] at h; exact h
    by_cases hi : i < l.length
    · rw [List.get?_append hi, Nat.mod_eq_of_lt hi]
    · push_neg at hi
      rw [List.get?_append_right hi]
      rw [ih (i - l.length) (by omega)]
      rw [Nat.mod_eq_sub_mod hi]

theorem colormap_length : _COLORMAP.length = 13 := by decide

theorem colormap_entries_bounded :
    ∀ r ∈ _COLORMAP, ∀ x ∈ r, 0 ≤ x ∧ x ≤ 255 := by decide

theorem selected_length_le (n : Nat) :
    n ≤ (1 + n / _COLORMAP.length) * _COLORMAP.length := by
  rw [colormap_length]
  omega

theorem selected_mem_colormap (n : Nat) (r : List ℚ)
    (hr : r ∈ _selected_clusters_colors n) :
    ∃ r0 ∈ _COLORMAP, r = r0.map (fun x => x / 255) := by
  unfold _selected_clusters_colors at hr
  split at hr
  · rcases List.mem_map.1 hr with ⟨r0, hr0, rfl⟩
    have h1 := List.mem_of_mem_take hr0
    rcases List.mem_flatten.1 h1 with ⟨l0, hl0, hm⟩
    rcases List.eq_of_mem_replicate hl0 with rfl
    exact ⟨r0, hm, rfl⟩
  · rcases List.mem_map.1 hr with ⟨r0, hr0, rfl⟩
    exact ⟨r0, List.mem_of_mem_take hr0, rfl⟩

/-- C8: for `n_clusters ≥ 1`, `_selected_clusters_colors` returns exactly
`n_clusters` rows with entries in `[0, 1]`; for `n_clusters` at most the
13-row colormap it is the first `n_clusters` colormap rows divided by 255,
and in general row `i` is colormap row `i % 13` divided by 255 (cyclic
repetition). -/
theorem selected_clusters_colors_spec (n : Nat) (h : 1 ≤ n) :
    (_selected_clusters_colors n).length = n ∧
    (∀ r ∈ _selected_clusters_colors n, ∀ x ∈ r, 0 ≤ x ∧ x ≤ 1) ∧
    (n ≤ _COLORMAP.length →
      _selected_clusters_colors n =
        (_COLORMAP.take n).map (fun r => r.map (fun x => x / 255))) ∧
    (∀ i < n, (_selected_clusters_colors n).get? i =
      (_COLORMAP.get? (i % _COLORMAP.length)).map
        (fun r => r.map (fun x => x / 255))) := by
  have hle : n ≤ (1 + n / _COLORMAP.length) * _COLORMAP.length :=
    selected_length_le n
  have hflatlen :
      ((List.replicate (1 + n / _COLORMAP.length) _COLORMAP).flatten).length =
        (1 + n / _COLORMAP.length) * _COLORMAP.length := by
    rw [List.length_flatten, List.map_replicate, List.sum_replicate,
      smul_eq_mul]
  refine ⟨?_, ?_, ?_, ?_⟩
  · unfold _selected_clusters_colors
    split
    · rw [List.length_map, List.length_take, hflatlen]
      omega
    · rw [List.length_map, List.length_take]
      omega
  · intro r hr x hx
    rcases selected_mem_colormap n r hr with ⟨r0, hr0, rfl⟩
    rcases List.mem_map.1 hx with ⟨y, hy, rfl⟩
    have hb := colormap_entries_bounded r0 hr0 y hy
    constructor
    · exact div_nonneg hb.1 (by norm_num)
    · rw [div_le_one (by norm_num)]
      linarith [hb.2]
  · intro hn
    unfold _selected_clusters_colors
    rw [if_neg (by omega)]
  · intro i hi
    unfold _selected_clusters_colors
    split
    · rw [List.get?_map, List.get?_take (by omega),
        join_replicate_get? _ _ _ (by omega)]
    · rw [List.get?_map, List.get?_take (by omega),
        Nat.mod_eq_of_lt (by omega)]

/-- Witness for C8 at the concrete input `n_clusters = 20`, which exceeds
the 13-row colormap and exercises the cyclic branch. -/
theorem selected_clusters_colors_spec_witness :
    1 ≤ 20 ∧
    ((_selected_clusters_colors 20).length = 20 ∧
    (∀ r ∈ _selected_clusters_colors 20, ∀ x ∈ r, 0 ≤ x ∧ x ≤ 1) ∧
    (20 ≤ _COLORMAP.length →
      _selected_clusters_colors 20 =
        (_COLORMAP.take 20).map (fun r => r.map (fun x => x / 255))) ∧
    (∀ i < 20, (_selected_clusters_colors 20).get? i =
      (_COLORMAP.get? (i % _COLORMAP.length)).map
        (fun r => r.map (fun x => x / 255)))) :=
  ⟨by decide, selected_clusters_colors_spec 20 (by decide)⟩

/-- Modelled from the spec: `_get_padded` (from `phy.io.array`, not under
`src/`).  The spec describes the extracted waveform window as "zero-padded
where the window extends past the trace boundaries": `getPadded rows ncols
start len` returns rows `start, …, start + len - 1` of `rows`, substituting
a row of `ncols` zeros for indices outside `[0, rows.length)`. -/
def getPadded (rows : List (List ℚ)) (ncols : Nat) (start : ℤ) (len : Nat) :
    List (List ℚ) :=
  (List.range len).map (fun (k : Nat) =>
    if 0 ≤ start + (k : ℤ) ∧ start + (k : ℤ) < (rows.length : ℤ) then
      rows.getD (start + (k : ℤ)).toNat []
    else List.replicate ncols (0 : ℚ))

/-- The channels singled out by `_extract_wave`: indices of the mask
entries strictly above 0.1 (`np.nonzero(mask > .1)[0]`). -/
def waveChannels (mask : List ℚ) : List Nat :=
  (List.range mask.length).filter
    (fun ch => decide ((1 : ℚ)/10 < mask.getD ch 0))

/-- `i = spk - wave_len // 2` in `_extract_wave`. -/
def waveStart (spk : ℤ) (wave_len : Nat) : ℤ := spk - (wave_len / 2 : Nat)

/-- `j = spk + wave_len // 2` in `_extract_wave`. -/
def waveStop (spk : ℤ) (wave_len : Nat) : ℤ := spk + (wave_len / 2 : Nat)

/-- `a = max(0, i)` in `_extract_wave`. -/
def waveA (spk : ℤ) (wave_len : Nat) : ℤ := max 0 (waveStart spk wave_len)

/-- `b = min(j, n_samples - 1)` in `_extract_wave`. -/
def waveB (traces : List (List ℚ)) (spk : ℤ) (wave_len : Nat) : ℤ :=
  min (waveStop spk wave_len) ((traces.length : ℤ) - 1)

/-- `data = traces[a:b, channels]` in `_extract_wave`. -/
def waveRows (traces : List (List ℚ)) (spk : ℤ) (mask : List ℚ)
    (wave_len : Nat) : List (List ℚ) :=
  ((traces.drop (waveA spk wave_len).toNat).take
    (waveB traces spk wave_len - waveA spk wave_len).toNat).map
    (fun r => (waveChannels mask).map (fun ch => r.getD ch 0))

/-- `data = _get_padded(data, i - a, i - a + wave_len)` in
`_extract_wave`. -/
def waveData (traces : List (List ℚ)) (spk : ℤ) (mask : List ℚ)
    (wave_len : Nat) : List (List ℚ) :=
  getPadded (waveRows traces spk mask wave_len) (waveChannels mask).length
    (waveStart spk wave_len - waveA spk wave_len) wave_len

/-- `_extract_wave` from `phy/cluster/manual/views.py`.  Raising
`ValueError` is modelled as `Except.error ()` and the early `return`
(no channel with mask above 0.1) as `Except.ok none`.  The float literal
`.1` is modelled as the rational `1/10`. -/
def _extract_wave (traces : List (List ℚ)) (spk : ℤ) (mask : List ℚ)
    (wave_len : Nat) : Except Unit (Option (List (List ℚ) × List Nat)) :=
  if ¬ (0 ≤ spk ∧ spk < (traces.length : ℤ)) then Except.error ()
  else if (waveChannels mask).isEmpty then Except.ok none
  else Except.ok (some (waveData traces spk mask wave_len,
    waveChannels mask))

theorem getD_eq_of_lt {α : Type} (l : List α) (n : Nat) (d : α)
    (h : n < l.length) : l.getD n d = l[n] := by
  rw [List.getD_eq_getElem?_getD, List.getElem?_eq_getElem h]
  rfl

theorem getD_mem_of_lt {α : Type} (l : List α) (n : Nat) (d : α)
    (h : n < l.length) : l.getD n d ∈ l := by
  rw [getD_eq_of_lt l n d h]
  exact l.getElem_mem h

theorem length_filter_getD (p : ℚ → Bool) (l : List ℚ) :
    ((List.range l.length).filter (fun i => p (l.getD i 0))).length =
      (l.filter p).length := by
  induction l with
  | nil => simp
  | cons x t ih =>
    have hpred : ((fun i => p ((x :: t).getD i 0)) ∘ Nat.succ) =
        (fun i => p (t.getD i 0)) := by
      funext i
      simp [List.getD_cons_succ]
    rw [List.length_cons, List.range_succ_eq_map, List.filter_cons,
      List.filter_cons, List.filter_map, hpred]
    by_cases hx : p x = true
    · rw [if_pos (by simpa using hx), if_pos hx, List.length_cons,
        List.length_cons, List.length_map, ih]
    · rw [if_neg (by simpa using hx), if_neg hx, List.length_map, ih]

theorem waveRows_length (traces : List (List ℚ)) (spk : ℤ) (mask : List ℚ)
    (wave_len : Nat) (hs : 0 ≤ spk ∧ spk < (traces.length : ℤ)) :
    (waveRows traces spk mask wave_len).length =
      (waveB traces spk wave_len - waveA spk wave_len).toNat := by
  rw [waveRows, List.length_map, List.length_take, List.length_drop]
  simp only [waveA, waveB, waveStart, waveStop]
  omega

theorem waveRows_getD (traces : List (List ℚ)) (spk : ℤ) (mask : List ℚ)
    (wave_len : Nat) (idx : Nat)
    (hidx : idx < (waveRows traces spk mask wave_len).length) :
    (waveRows traces spk mask wave_len).getD idx [] =
      (waveChannels mask).map (fun ch =>
        (traces.getD ((waveA spk wave_len).toNat + idx) []).getD ch 0) := by
  rw [waveRows] at hidx ⊢
  rw [List.length_map, List.length_take, List.length_drop] at hidx
  rw [List.getD_eq_getElem?_getD, List.getElem?_map,
    List.getElem?_take_of_lt (by omega), List.getElem?_drop]
  have htr : (waveA spk wave_len).toNat + idx < traces.length := by omega
  rw [List.getElem?_eq_getElem htr, getD_eq_of_lt _ _ _ htr]
  rfl

theorem waveData_get? (traces : List (List ℚ)) (spk : ℤ) (mask : List ℚ)
    (wave_len k : Nat) (hk : k < wave_len)
    (hs : 0 ≤ spk ∧ spk < (traces.length : ℤ)) :
    (waveData traces spk mask wave_len).get? k =
      some (if waveA spk wave_len ≤ waveStart spk wave_len + (k : ℤ) ∧
          waveStart spk wave_len + (k : ℤ) < waveB traces spk wave_len then
        (waveChannels mask).map (fun ch =>
          (traces.getD (waveStart spk wave_len + (k : ℤ)).toNat []).getD
            ch 0)
      else List.replicate (waveChannels mask).length 0) := by
  have hrlen := waveRows_length traces spk mask wave_len hs
  have hcond : (0 ≤ waveStart spk wave_len - waveA spk wave_len + (k : ℤ) ∧
      waveStart spk wave_len - waveA spk wave_len + (k : ℤ) <
        ((waveRows traces spk mask wave_len).length : ℤ)) ↔
      (waveA spk wave_len ≤ waveStart spk wave_len + (k : ℤ) ∧
       waveStart spk wave_len + (k : ℤ) < waveB traces spk wave_len) := by
    rw [hrlen]
    simp only [waveA, waveB, waveStart, waveStop]
    omega
  rw [waveData, getPadded, List.get?_eq_getElem?, List.getElem?_map,
    List.getElem?_range hk]
  simp only [Option.map_some']
  congr 1
  by_cases hq : (waveA spk wave_len ≤ waveStart spk wave_len + (k : ℤ) ∧
      waveStart spk wave_len + (k : ℤ) < waveB traces spk wave_len)
  · rw [if_pos (hcond.2 hq), if_pos hq]
    have h1 := hcond.2 hq
    have hidx : (waveStart spk wave_len - waveA spk wave_len +
        (k : ℤ)).toNat < (waveRows traces spk mask wave_len).length := by
      rcases h1 with ⟨h1a, h1b⟩
      omega
    rw [waveRows_getD traces spk mask wave_len _ hidx]
    have hidxeq : (waveA spk wave_len).toNat +
        (waveStart spk wave_len - waveA spk wave_len + (k : ℤ)).toNat =
        (waveStart spk wave_len + (k : ℤ)).toNat := by
      rcases h1 with ⟨h1a, h1b⟩
      simp only [waveA, waveStart] at h1a ⊢
      omega
    rw [hidxeq]
  · rw [if_neg (fun hp => hq (hcond.1 hp)), if_neg hq]

/-- C9: `_extract_wave` raises `ValueError` exactly when `spk` lies outside
`[0, n_samples)`; otherwise it returns no data exactly when no channel has
mask above `0.1`, and otherwise a pair `(data, channels)` where `data` has
exactly `wave_len` rows, each of length equal to the number of channels
with mask above `0.1`; row `k` (for window sample `i + k`, with
`i = spk - wave_len // 2`) is the selected channels of the trace row at
that sample when it lies inside the extracted slice `[a, b)`, and a zero
row where the window extends past the slice boundaries. -/
theorem extract_wave_spec (traces : List (List ℚ)) (spk : ℤ) (mask : List ℚ)
    (wave_len : Nat) (hshape : ∀ r ∈ traces, r.length = mask.length) :
    (_extract_wave traces spk mask wave_len = Except.error () ↔
      ¬ (0 ≤ spk ∧ spk < (traces.length : ℤ))) ∧
    ((0 ≤ spk ∧ spk < (traces.length : ℤ)) →
      (_extract_wave traces spk mask wave_len = Except.ok none ↔
        ∀ ch < mask.length, ¬ ((1 : ℚ)/10 < mask.getD ch 0)) ∧
      ((∃ ch < mask.length, (1 : ℚ)/10 < mask.getD ch 0) →
        ∃ data channels,
          _extract_wave traces spk mask wave_len =
            Except.ok (some (data, channels)) ∧
          data.length = wave_len ∧
          channels.length =
            (mask.filter (fun x => decide ((1 : ℚ)/10 < x))).length ∧
          (∀ row ∈ data, row.length = channels.length) ∧
          (∀ k : Nat, k < wave_len →
            ((waveA spk wave_len ≤ waveStart spk wave_len + (k : ℤ) ∧
              waveStart spk wave_len + (k : ℤ) <
                waveB traces spk wave_len) →
              data.get? k = some (channels.map (fun ch =>
                (traces.getD (waveStart spk wave_len + (k : ℤ)).toNat
                  []).getD ch 0))) ∧
            (¬ (waveA spk wave_len ≤ waveStart spk wave_len + (k : ℤ) ∧
                waveStart spk wave_len + (k : ℤ) <
                  waveB traces spk wave_len) →
              data.get? k =
                some (List.replicate channels.length 0))))) := by
  classical
  have hchan : ∀ ch, ch ∈ waveChannels mask ↔
      ch < mask.length ∧ (1 : ℚ)/10 < mask.getD ch 0 := by
    intro ch
    simp [waveChannels, List.mem_filter, List.mem_range]
  constructor
  · by_cases hs : (0 ≤ spk ∧ spk < (traces.length : ℤ))
    · rw [_extract_wave, if_neg (not_not.2 hs)]
      constructor
      · intro hcontra
        split at hcontra <;> simp at hcontra
      · intro hcontra; exact absurd hs hcontra
    · rw [_extract_wave, if_pos hs]
      exact ⟨fun _ => hs, fun _ => rfl⟩
  · intro hs
    rw [_extract_wave, if_neg (not_not.2 hs)]
    constructor
    · by_cases hc : (waveChannels mask).isEmpty
      · rw [if_pos hc]
        simp only [List.isEmpty_iff] at hc
        constructor
        · intro _ ch hch hgt
          have hm : ch ∈ waveChannels mask := (hchan ch).2 ⟨hch, hgt⟩
          rw [hc] at hm
          exact List.not_mem_nil ch hm
        · intro _; rfl
      · rw [if_neg hc]
        simp only [List.isEmpty_iff] at hc
        constructor
        · intro hcontra; exact absurd hcontra (by simp)
        · intro hall
          exfalso
          apply hc
          rw [List.eq_nil_iff_forall_not_mem]
          intro ch hch
          rcases (hchan ch).1 hch with ⟨h1, h2⟩
          exact hall ch h1 h2
    · intro ⟨ch0, hch0, hgt0⟩
      have hc : ¬ (waveChannels mask).isEmpty := by
        simp only [List.isEmpty_iff]
        intro hnil
        have hm : ch0 ∈ waveChannels mask := (hchan ch0).2 ⟨hch0, hgt0⟩
        rw [hnil] at hm
        exact List.not_mem_nil ch0 hm
      refine ⟨waveData traces spk mask wave_len, waveChannels mask,
        by rw [if_neg hc], ?_, ?_, ?_, ?_⟩
      · rw [waveData, getPadded, List.length_map, List.length_range]
      · exact length_filter_getD (fun x => decide ((1 : ℚ)/10 < x)) mask
      · intro row hrow
        simp only [waveData, getPadded, List.mem_map] at hrow
        rcases hrow with ⟨k, _, rfl⟩
        split
        · next hin =>
          have hlt : ((waveStart spk wave_len - waveA spk wave_len) +
              (k : ℤ)).toNat < (waveRows traces spk mask wave_len).length := by
            omega
          have hall : ∀ row ∈ waveRows traces spk mask wave_len,
              row.length = (waveChannels mask).length := by
            intro row hrow
            rw [waveRows] at hrow
            rcases List.mem_map.1 hrow with ⟨r, _, rfl⟩
            rw [List.length_map]
          exact hall _ (getD_mem_of_lt _ _ [] hlt)
        · next =>
          rw [List.length_replicate]
      · intro k hk
        constructor
        · intro hin
          rw [waveData_get? traces spk mask wave_len k hk hs, if_pos hin]
        · intro hout
          rw [waveData_get? traces spk mask wave_len k hk hs, if_neg hout]

/-- Witness for C9: a concrete 4-sample, 2-channel trace with `spk = 2`,
one channel above the mask threshold, `wave_len = 6` (window extends past
both trace boundaries). -/
theorem extract_wave_spec_witness :
    (∀ r ∈ [[(1 : ℚ), 2], [3, 4], [5, 6], [7, 8]], r.length =
      [(0 : ℚ), 1].length) ∧
    ((_extract_wave [[(1 : ℚ), 2], [3, 4], [5, 6], [7, 8]] 2 [0, 1] 6 =
        Except.error () ↔
      ¬ ((0 : ℤ) ≤ 2 ∧ (2 : ℤ) <
        (([[(1 : ℚ), 2], [3, 4], [5, 6], [7, 8]].length : Nat) : ℤ))) ∧
    (((0 : ℤ) ≤ 2 ∧ (2 : ℤ) <
        (([[(1 : ℚ), 2], [3, 4], [5, 6], [7, 8]].length : Nat) : ℤ)) →
      (_extract_wave [[(1 : ℚ), 2], [3, 4], [5, 6], [7, 8]] 2 [0, 1] 6 =
          Except.ok none ↔
        ∀ ch < [(0 : ℚ), 1].length,
          ¬ ((1 : ℚ)/10 < [(0 : ℚ), 1].getD ch 0)) ∧
      ((∃ ch < [(0 : ℚ), 1].length, (1 : ℚ)/10 < [(0 : ℚ), 1].getD ch 0) →
        ∃ data channels,
          _extract_wave [[(1 : ℚ), 2], [3, 4], [5, 6], [7, 8]] 2 [0, 1] 6 =
            Except.ok (some (data, channels)) ∧
          data.length = 6 ∧
          channels.length =
            ([(0 : ℚ), 1].filter (fun x => decide ((1 : ℚ)/10 < x))).length ∧
          (∀ row ∈ data, row.length = channels.length) ∧
          (∀ k : Nat, k < 6 →
            ((waveA 2 6 ≤ waveStart 2 6 + (k : ℤ) ∧
              waveStart 2 6 + (k : ℤ) <
                waveB [[(1 : ℚ), 2], [3, 4], [5, 6], [7, 8]] 2 6) →
              data.get? k = some (channels.map (fun ch =>
                ([[(1 : ℚ), 2], [3, 4], [5, 6], [7, 8]].getD
                  (waveStart 2 6 + (k : ℤ)).toNat []).getD ch 0))) ∧
            (¬ (waveA 2 6 ≤ waveStart 2 6 + (k : ℤ) ∧
                waveStart 2 6 + (k : ℤ) <
                  waveB [[(1 : ℚ), 2], [3, 4], [5, 6], [7, 8]] 2 6) →
              data.get? k =
                some (List.replicate channels.length 0)))))) :=
  ⟨by decide, extract_wave_spec [[(1 : ℚ), 2], [3, 4], [5, 6], [7, 8]] 2
    [0, 1] 6 (by decide)⟩

/-- Modelled from the spec: `_index_of(arr, lookup)` (from `phy.io.array`,
not under `src/`) maps every element of `arr` to its relative index in
`lookup`. -/
def _index_of (arr : List Nat) (lookup : List Nat) : List Nat :=
  arr.map (fun x => lookup.indexOf x)

/-- `_get_spike_clusters_rel` from `phy/cluster/manual/views.py`: selects
`spike_clusters[spike_ids]`, asserts every selected cluster is listed in
`cluster_ids` (assertion failure modelled as `none`), and returns the
relative index of each selected cluster in `cluster_ids`. -/
def _get_spike_clusters_rel (spike_clusters : List Nat) (spike_ids : List Nat)
    (cluster_ids : List Nat) : Option (List Nat) :=
  let sel := spike_ids.map (fun s => spike_clusters.getD s 0)
  if sel.all (fun c => cluster_ids.contains c) then
    some (_index_of sel cluster_ids)
  else none

/-- C10: when every spike in `spike_ids` belongs to a cluster listed in
`cluster_ids`, `_get_spike_clusters_rel` succeeds and returns, for each
position `k`, a relative index below `cluster_ids.length` such that
`cluster_ids[result[k]] = spike_clusters[spike_ids[k]]`; the position in
the supplied (unsorted) `cluster_ids` determines the relative index. -/
theorem get_spike_clusters_rel_spec (spike_clusters spike_ids cluster_ids :
    List Nat)
    (hmem : ∀ s ∈ spike_ids, spike_clusters.getD s 0 ∈ cluster_ids) :
    ∃ r, _get_spike_clusters_rel spike_clusters spike_ids cluster_ids =
        some r ∧
      r.length = spike_ids.length ∧
      ∀ k < spike_ids.length, ∃ v, r.get? k = some v ∧
        v < cluster_ids.length ∧
        cluster_ids.get? v =
          some (spike_clusters.getD (spike_ids.getD k 0) 0) := by
  classical
  have hall : (spike_ids.map (fun s => spike_clusters.getD s 0)).all
      (fun c => cluster_ids.contains c) = true := by
    rw [List.all_eq_true]
    intro c hc
    rcases List.mem_map.1 hc with ⟨s, hs, rfl⟩
    simpa [List.contains, List.elem_iff] using hmem s hs
  refine ⟨_index_of (spike_ids.map (fun s => spike_clusters.getD s 0))
      cluster_ids, ?_, ?_, ?_⟩
  · simp only [_get_spike_clusters_rel]
    rw [if_pos hall]
  · simp [_index_of]
  · intro k hk
    have hsel : spike_ids.getD k 0 = spike_ids[k] :=
      getD_eq_of_lt spike_ids k 0 hk
    have hmemk : spike_ids.getD k 0 ∈ spike_ids :=
      getD_mem_of_lt spike_ids k 0 hk
    refine ⟨cluster_ids.indexOf (spike_clusters.getD (spike_ids.getD k 0) 0),
      ?_, ?_, ?_⟩
    · simp only [_index_of, List.get?_eq_getElem?, List.getElem?_map]
      rw [List.getElem?_eq_getElem hk, hsel]
      rfl
    · exact List.indexOf_lt_length.2 (hmem _ hmemk)
    · exact List.indexOf_get? (hmem _ hmemk)

/-- Witness for C10 with unsorted `cluster_ids = [7, 3]`: spikes 2 and 0
belong to clusters 3 and 7. -/
theorem get_spike_clusters_rel_spec_witness :
    (∀ s ∈ [2, 0], [7, 3, 7].getD s 0 ∈ [7, 3]) ∧
    ∃ r, _get_spike_clusters_rel [7, 3, 7] [2, 0] [7, 3] = some r ∧
      r.length = [2, 0].length ∧
      ∀ k < [2, 0].length, ∃ v, r.get? k = some v ∧
        v < [7, 3].length ∧
        [7, 3].get? v = some ([7, 3, 7].getD ([2, 0].getD k 0) 0) :=
  ⟨by decide, get_spike_clusters_rel_spec [7, 3, 7] [2, 0] [7, 3] (by decide)⟩

/-!
## The cluster store

The cluster-store implementation (`phy.io.kwik.store_items`,
`phy.io.store`, `phy.utils.array`) is not under `src/` — only its test
`test_store_items.py` is.  The definitions below are therefore modelled
from the spec (sections 3, 4 and 8), as marked in their doc comments.
-/

/-- Splits a list into consecutive chunks of `k` elements (a chunk size of
0 is treated as 1; the last chunk may be shorter). -/
def chunkList {α : Type} (k : Nat) (l : List α) : List (List α) :=
  match l with
  | [] => []
  | a :: l' => (a :: l').take (max 1 k) :: chunkList k ((a :: l').drop (max 1 k))
termination_by l.length
decreasing_by
  simp only [List.length_drop, List.length_cons]
  omega

theorem chunkList_flatten {α : Type} (k : Nat) (l : List α) :
    (chunkList k l).flatten = l := by
  induction l using chunkList.induct k with
  | case1 => simp [chunkList]
  | case2 a l' ih =>
    rw [chunkList, List.flatten_cons, ih, List.take_append_drop]

theorem chunkList_piece_length {α : Type} (k : Nat) (hk : 1 ≤ k)
    (l : List α) (hdvd : k ∣ l.length) :
    ∀ p ∈ chunkList k l, p.length = k := by
  induction l using chunkList.induct k with
  | case1 => simp [chunkList]
  | case2 a l' ih =>
    intro p hp
    rw [chunkList] at hp
    have hmax : max 1 k = k := by omega
    have hlen : k ≤ (a :: l').length := by
      rcases hdvd with ⟨t, ht⟩
      have ht1 : 1 ≤ t := by
        by_contra hcon
        have : t = 0 := by omega
        simp [this] at ht
      calc k = k * 1 := by omega
      _ ≤ k * t := Nat.mul_le_mul_left k ht1
      _ = (a :: l').length := ht.symm
    rcases List.mem_cons.1 hp with rfl | hp'
    · rw [List.length_take]
      omega
    · refine ih ?_ p hp'
      rw [List.length_drop]
      rcases hdvd with ⟨t, ht⟩
      exact ⟨t - 1, by rw [ht, hmax, Nat.mul_sub_one]⟩

theorem chunkList_count {α : Type} (k : Nat) (hk : 1 ≤ k) (l : List α)
    (hdvd : k ∣ l.length) : (chunkList k l).length = l.length / k := by
  induction l using chunkList.induct k with
  | case1 => simp [chunkList]
  | case2 a l' ih =>
    have hmax : max 1 k = k := by omega
    have hlen : k ≤ (a :: l').length := by
      rcases hdvd with ⟨t, ht⟩
      have ht1 : 1 ≤ t := by
        by_contra hcon
        have : t = 0 := by omega
        simp [this] at ht
      calc k = k * 1 := by omega
      _ ≤ k * t := Nat.mul_le_mul_left k ht1
      _ = (a :: l').length := ht.symm
    have hdvd' : k ∣ ((a :: l').drop (max 1 k)).length := by
      rw [List.length_drop]
      rcases hdvd with ⟨t, ht⟩
      exact ⟨t - 1, by rw [ht, hmax, Nat.mul_sub_one]⟩
    rw [chunkList, List.length_cons, ih hdvd']
    rw [List.length_drop, hmax]
    rcases hdvd with ⟨t, ht⟩
    rw [ht]
    rw [Nat.mul_div_cancel_left t (by omega)]
    have : k * t - k = k * (t - 1) := by
      rw [Nat.mul_sub_one]
    rw [this, Nat.mul_div_cancel_left (t - 1) (by omega)]
    have ht1 : 1 ≤ t := by
      by_contra hcon
      have h0 : t = 0 := by omega
      simp [h0] at ht
    omega

theorem flatten_filter_map {α β : Type} (p : α → Bool) (row : α → β)
    (ls : List (List α)) :
    (ls.map (fun ch => (ch.filter p).map row)).flatten =
      (ls.flatten.filter p).map row := by
  induction ls with
  | nil => simp
  | cons hll t ih =>
    simp only [List.map_cons, List.flatten_cons, List.filter_append,
      List.map_append, ih]

/-- Modelled from the spec: `_spikes_per_cluster` (the SpikeIndex build;
`phy.utils.array` is not under `src/`).  Per spec §4.1, it maps a cluster
id to the list of spike ids assigned to it by `spike_clusters`, in
ascending original order. -/
def spikes_per_cluster (sc : List Nat) (c : Nat) : List Nat :=
  (List.range sc.length).filter (fun i => decide (sc.getD i 0 = c))

/-- The distinct cluster ids occurring in `spike_clusters`, in order of
first occurrence. -/
def clusterIds (sc : List Nat) : List Nat := sc.dedup

theorem mem_spikes_per_cluster (sc : List Nat) (c i : Nat) :
    i ∈ spikes_per_cluster sc c ↔ i < sc.length ∧ sc.getD i 0 = c := by
  simp [spikes_per_cluster, List.mem_filter, List.mem_range]

theorem spikes_per_cluster_sorted (sc : List Nat) (c : Nat) :
    (spikes_per_cluster sc c).Pairwise (· < ·) :=
  List.Pairwise.filter _ (List.pairwise_lt_range sc.length)

theorem spikes_per_cluster_nodup (sc : List Nat) (c : Nat) :
    (spikes_per_cluster sc c).Nodup :=
  (spikes_per_cluster_sorted sc c).imp Nat.ne_of_lt

theorem count_spikes_per_cluster (sc : List Nat) (c i : Nat)
    (hi : i < sc.length) :
    (spikes_per_cluster sc c).count i = if sc.getD i 0 = c then 1 else 0 := by
  by_cases hc : sc.getD i 0 = c
  · rw [if_pos hc]
    exact List.count_eq_one_of_mem (spikes_per_cluster_nodup sc c)
      ((mem_spikes_per_cluster sc c i).2 ⟨hi, hc⟩)
  · rw [if_neg hc]
    exact List.count_eq_zero_of_not_mem
      (fun hmem => hc ((mem_spikes_per_cluster sc c i).1 hmem).2)

theorem sum_map_single (x : Nat) :
    ∀ (l : List Nat), l.Nodup → x ∈ l →
      (l.map (fun c => if x = c then (1 : Nat) else 0)).sum = 1 := by
  intro l
  induction l with
  | nil => intro _ hx; exact absurd hx (List.not_mem_nil x)
  | cons c t ih =>
    intro hnd hx
    rw [List.map_cons, List.sum_cons]
    rcases List.nodup_cons.1 hnd with ⟨hct, hndt⟩
    by_cases hxc : x = c
    · rw [if_pos hxc]
      have hxt : x ∉ t := by rw [hxc]; exact hct
      have hz : (t.map (fun c => if x = c then (1 : Nat) else 0)).sum = 0 := by
        apply List.sum_eq_zero
        intro y hy
        rcases List.mem_map.1 hy with ⟨c', hc', rfl⟩
        have hne' : x ≠ c' := fun hcon => hxt (by rw [hcon]; exact hc')
        rw [if_neg hne']
      rw [hz]
    · rw [if_neg hxc]
      have hxt : x ∈ t := by
        rcases List.mem_cons.1 hx with h0 | h0
        · exact absurd h0 hxc
        · exact h0
      rw [ih hndt hxt]

/-- C7: for every valid `spike_clusters` array the SpikeIndex is an
exhaustive and disjoint partition: within a cluster spike ids appear in
strictly ascending order, and the concatenation over all occurring
clusters is a permutation of the full spike-id range `0, …, n-1` (so each
spike appears exactly once). -/
theorem spike_index_partition (sc : List Nat) (hne : sc ≠ []) :
    (∀ c, (spikes_per_cluster sc c).Pairwise (· < ·)) ∧
    ((clusterIds sc).map (spikes_per_cluster sc)).flatten.Perm
      (List.range sc.length) := by
  refine ⟨fun c => spikes_per_cluster_sorted sc c, ?_⟩
  rw [List.perm_iff_count]
  intro i
  rw [List.count_flatten, List.map_map]
  by_cases hi : i < sc.length
  · have hcounts : ((clusterIds sc).map (List.count i ∘ spikes_per_cluster sc))
        = (clusterIds sc).map (fun c => if sc.getD i 0 = c then 1 else 0) := by
      apply List.map_congr_left
      intro c _
      exact count_spikes_per_cluster sc c i hi
    rw [hcounts]
    rw [List.count_eq_one_of_mem (List.nodup_range sc.length)
      (List.mem_range.2 hi)]
    apply sum_map_single
    · exact List.nodup_dedup sc
    · rw [clusterIds, List.mem_dedup]
      exact getD_mem_of_lt sc i 0 hi
  · have hz : ((clusterIds sc).map (List.count i ∘ spikes_per_cluster sc))
        = (clusterIds sc).map (fun _ => 0) := by
      apply List.map_congr_left
      intro c _
      simp only [Function.comp]
      exact List.count_eq_zero_of_not_mem
        (fun hmem => hi ((mem_spikes_per_cluster sc c i).1 hmem).1)
    rw [hz]
    rw [List.count_eq_zero_of_not_mem (fun hmem => hi (List.mem_range.1 hmem))]
    simp

/-- Witness for C7 on a concrete 6-spike assignment with interleaved
clusters. -/
theorem spike_index_partition_witness :
    ([4, 2, 4, 7, 2, 4] : List Nat) ≠ [] ∧
    ((∀ c, (spikes_per_cluster [4, 2, 4, 7, 2, 4] c).Pairwise (· < ·)) ∧
    ((clusterIds [4, 2, 4, 7, 2, 4]).map
      (spikes_per_cluster [4, 2, 4, 7, 2, 4])).flatten.Perm
      (List.range ([4, 2, 4, 7, 2, 4] : List Nat).length)) :=
  ⟨by decide, spike_index_partition [4, 2, 4, 7, 2, 4] (by decide)⟩

/-- Modelled from the spec (§6): the raw recording as read-only, randomly
indexable arrays; each per-spike row (features, masks, waveform) is a flat
vector of rationals. -/
structure RawModel where
  spike_clusters : List Nat
  features : Nat → List ℚ
  masks : Nat → List ℚ
  waveforms : Nat → List ℚ

/-- Modelled from the spec (§4.2, §4.3): the two-tier cache.  Disk entries
are keyed by (field, cluster) and hold per-spike rows; memory entries are
keyed by (field, cluster) and hold derived vectors.  `none` is an absent
entry. -/
structure StoreData where
  disk : String → Nat → Option (List (List ℚ))
  memory : String → Nat → Option (List ℚ)

def emptyStore : StoreData := ⟨fun _ _ => none, fun _ _ => none⟩

/-- Writes one disk entry, leaving every other entry untouched. -/
def diskWrite (d : StoreData) (field : String) (c : Nat)
    (rows : List (List ℚ)) : StoreData :=
  ⟨fun f c' => if f = field ∧ c' = c then some rows else d.disk f c',
   d.memory⟩

/-- Modelled from the spec (§4.3): `DiskStore.generate` iterates the raw
recording in fixed-size chunks of spikes and, per chunk, appends the rows
belonging to cluster `c` to that cluster's region; the stored rows for `c`
are the concatenation of the per-chunk contributions. -/
def chunkedClusterRows {β : Type} (row : Nat → β) (sc : List Nat)
    (chunk_size : Nat) (c : Nat) : List β :=
  ((chunkList chunk_size (List.range sc.length)).map
    (fun ch => (ch.filter (fun i => decide (sc.getD i 0 = c))).map row)).flatten

theorem chunkedClusterRows_eq {β : Type} (row : Nat → β) (sc : List Nat)
    (chunk_size c : Nat) :
    chunkedClusterRows row sc chunk_size c =
      (spikes_per_cluster sc c).map row := by
  rw [chunkedClusterRows, flatten_filter_map, chunkList_flatten]
  rfl

/-- Modelled from the spec (§4.4, §9): when a cluster has more than
`n_max` spikes, only `n_max / exc` evenly spaced groups of `exc`
consecutive positions are materialized, the group starts spread evenly
between `0` and `n - exc`; otherwise every position is kept. -/
def excerptPositions (n n_max exc : Nat) : List Nat :=
  if n ≤ n_max then List.range n
  else ((List.range (n_max / exc)).map (fun g =>
    (List.range exc).map
      (fun t => g * (n - exc) / (n_max / exc - 1) + t))).flatten

/-- Modelled from the spec (§4.4): the Waveforms item records which spike
ids were actually materialized in its own `spikes_per_cluster` mapping,
distinct from the global SpikeIndex. -/
def waveformsSpc (sc : List Nat) (n_max exc c : Nat) : List Nat :=
  (excerptPositions (spikes_per_cluster sc c).length n_max exc).map
    (fun p => (spikes_per_cluster sc c).getD p 0)

/-- Per-cluster disk rows of the FeaturesMasks item's `features` field. -/
def featuresRows (m : RawModel) (chunk_size c : Nat) : List (List ℚ) :=
  chunkedClusterRows m.features m.spike_clusters chunk_size c

/-- Per-cluster disk rows of the FeaturesMasks item's `masks` field. -/
def masksRows (m : RawModel) (chunk_size c : Nat) : List (List ℚ) :=
  chunkedClusterRows m.masks m.spike_clusters chunk_size c

/-- Per-cluster disk rows of the Waveforms item: only the materialized
(excerpted) spikes. -/
def waveformsRows (m : RawModel) (n_max exc c : Nat) : List (List ℚ) :=
  (waveformsSpc m.spike_clusters n_max exc c).map m.waveforms

/-- Modelled from the spec (§4.5): one step of bulk `generate` for one
field — an already cached (cluster, field) entry is skipped, otherwise
the rows are computed, written to disk, and the computation is logged. -/
def genStep (field : String) (rowsFor : Nat → List (List ℚ))
    (acc : StoreData × List (Nat × String)) (c : Nat) :
    StoreData × List (Nat × String) :=
  match acc.1.disk field c with
  | some _ => acc
  | none => (diskWrite acc.1 field c (rowsFor c), acc.2 ++ [(c, field)])

/-- Bulk generation of one field over a list of clusters, returning the
new store data and the log of (cluster, field) computations performed. -/
def genField (field : String) (rowsFor : Nat → List (List ℚ))
    (cids : List Nat) (d : StoreData) : StoreData × List (Nat × String) :=
  cids.foldl (genStep field rowsFor) (d, [])

/-- Modelled from the spec (§4.5): `ClusterStore.generate` runs the bulk
generation of every registered disk item (FeaturesMasks then Waveforms)
over all occurring clusters, skipping already cached entries; the
Statistics item is memory-tier and computed lazily on first access, not
during bulk generation (§4.4). -/
def generate (m : RawModel) (chunk_size n_max exc : Nat) (d : StoreData) :
    StoreData × List (Nat × String) :=
  let cids := clusterIds m.spike_clusters
  let r1 := genField "features" (featuresRows m chunk_size) cids d
  let r2 := genField "masks" (masksRows m chunk_size) cids r1.1
  let r3 := genField "waveforms" (waveformsRows m n_max exc) cids r2.1
  (r3.1, r1.2 ++ r2.2 ++ r3.2)

/-- `cs.features(cluster)`: the stored flat feature rows reshaped into
`n_features`-sized groups per channel (NumPy `reshape((-1, nc, nf))`). -/
def features_acc (d : StoreData) (nf c : Nat) :
    Option (List (List (List ℚ))) :=
  (d.disk "features" c).map (fun rows => rows.map (chunkList nf))

/-- `cs.masks(cluster)`. -/
def masks_acc (d : StoreData) (c : Nat) : Option (List (List ℚ)) :=
  d.disk "masks" c

/-- `cs.waveforms(cluster)`. -/
def waveforms_acc (d : StoreData) (c : Nat) : Option (List (List ℚ)) :=
  d.disk "waveforms" c

/-- Modelled from the spec (§4.3): `load(field, clusters=…)` concatenates
the per-cluster arrays in the order the cluster ids were supplied. -/
def load_clusters (d : StoreData) (field : String) (cids : List Nat) :
    Option (List (List ℚ)) :=
  (cids.mapM (fun c => d.disk field c)).map List.flatten

/-- Modelled from the spec (§4.3): `load(field, spikes=…)` resolves each
spike to its owning cluster, loads that cluster's rows and re-selects the
requested rows in the caller's order; `spcOf` is the owning item's
`spikes_per_cluster` mapping (the global SpikeIndex for features/masks,
the materialized subset for waveforms). -/
def load_spikes (d : StoreData) (field : String) (sc : List Nat)
    (spcOf : Nat → List Nat) (sids : List Nat) : Option (List (List ℚ)) :=
  sids.mapM (fun s =>
    (d.disk field (sc.getD s 0)).bind
      (fun rows => rows.get? ((spcOf (sc.getD s 0)).indexOf s)))

theorem genField_cons (field : String) (rowsFor : Nat → List (List ℚ))
    (c0 : Nat) (t : List Nat) (d : StoreData) :
    genField field rowsFor (c0 :: t) d =
      t.foldl (genStep field rowsFor) (genStep field rowsFor (d, []) c0) :=
  rfl

theorem genField_fold (field : String) (rowsFor : Nat → List (List ℚ)) :
    ∀ (cids : List Nat) (s : StoreData × List (Nat × String)),
    cids.foldl (genStep field rowsFor) s =
      ((genField field rowsFor cids s.1).1,
        s.2 ++ (genField field rowsFor cids s.1).2) := by
  intro cids
  induction cids with
  | nil => intro s; simp [genField]
  | cons c0 t ih =>
    intro s
    rw [List.foldl_cons, ih (genStep field rowsFor s c0), genField_cons,
      ih (genStep field rowsFor (s.1, []) c0)]
    cases hd : s.1.disk field c0 with
    | some x =>
      have h1 : genStep field rowsFor s c0 = s := by
        simp [genStep, hd]
      have h2 : genStep field rowsFor (s.1, []) c0 = (s.1, []) := by
        simp [genStep, hd]
      rw [h1, h2]
      simp
    | none =>
      have h1 : genStep field rowsFor s c0 =
          (diskWrite s.1 field c0 (rowsFor c0), s.2 ++ [(c0, field)]) := by
        simp [genStep, hd]
      have h2 : genStep field rowsFor (s.1, []) c0 =
          (diskWrite s.1 field c0 (rowsFor c0), [(c0, field)]) := by
        simp [genStep, hd]
      rw [h1, h2]
      simp

theorem genField_split (field : String) (rowsFor : Nat → List (List ℚ))
    (c0 : Nat) (t : List Nat) (d : StoreData) :
    (genField field rowsFor (c0 :: t) d).1 =
      (genField field rowsFor t
        ((genStep field rowsFor (d, []) c0).1)).1 := by
  rw [genField_cons, genField_fold]

theorem genField_disk (field : String) (rowsFor : Nat → List (List ℚ)) :
    ∀ (cids : List Nat) (d : StoreData) (f : String) (c : Nat),
    ((genField field rowsFor cids d).1).disk f c =
      if f = field ∧ c ∈ cids then
        some ((d.disk field c).getD (rowsFor c))
      else d.disk f c := by
  intro cids
  induction cids with
  | nil =>
    intro d f c
    simp [genField]
  | cons c0 t ih =>
    intro d f c
    rw [genField_split]
    cases hd : d.disk field c0 with
    | some x =>
      have h2 : (genStep field rowsFor (d, []) c0).1 = d := by
        simp [genStep, hd]
      rw [h2, ih d f c]
      by_cases hf : f = field
      · subst hf
        by_cases hc0 : c = c0
        · subst hc0
          by_cases hct : c ∈ t
          · simp [hct, List.mem_cons]
          · simp [hct, List.mem_cons, hd]
        · by_cases hct : c ∈ t
          · simp [hct, List.mem_cons, hc0]
          · simp [hct, List.mem_cons, hc0]
      · simp [hf]
    | none =>
      have h2 : (genStep field rowsFor (d, []) c0).1 =
          diskWrite d field c0 (rowsFor c0) := by
        simp [genStep, hd]
      rw [h2, ih _ f c]
      by_cases hf : f = field
      · subst hf
        by_cases hc0 : c = c0
        · subst hc0
          by_cases hct : c ∈ t
          · simp [hct, List.mem_cons, diskWrite, hd]
          · simp [hct, List.mem_cons, diskWrite, hd]
        · by_cases hct : c ∈ t
          · simp [hct, List.mem_cons, hc0, diskWrite]
          · simp [hct, List.mem_cons, hc0, diskWrite]
      · simp [hf, diskWrite]

theorem genField_memory (field : String) (rowsFor : Nat → List (List ℚ)) :
    ∀ (cids : List Nat) (d : StoreData),
    (genField field rowsFor cids d).1.memory = d.memory := by
  intro cids
  induction cids with
  | nil => intro d; rfl
  | cons c0 t ih =>
    intro d
    rw [genField_split]
    cases hd : d.disk field c0 with
    | some x =>
      have h2 : (genStep field rowsFor (d, []) c0).1 = d := by
        simp [genStep, hd]
      rw [h2, ih d]
    | none =>
      have h2 : (genStep field rowsFor (d, []) c0).1 =
          diskWrite d field c0 (rowsFor c0) := by
        simp [genStep, hd]
      rw [h2, ih]
      rfl

theorem genField_all_cached (field : String)
    (rowsFor : Nat → List (List ℚ)) :
    ∀ (cids : List Nat) (d : StoreData),
    (∀ c ∈ cids, (d.disk field c).isSome) →
    genField field rowsFor cids d = (d, []) := by
  intro cids
  induction cids with
  | nil => intro d _; rfl
  | cons c0 t ih =>
    intro d hcached
    cases hd : d.disk field c0 with
    | none =>
      have := hcached c0 (List.mem_cons_self c0 t)
      rw [hd] at this
      simp at this
    | some x =>
      have h2 : genStep field rowsFor (d, []) c0 = (d, []) := by
        simp [genStep, hd]
      rw [genField_cons, h2]
      exact ih d (fun c hc => hcached c (List.mem_cons_of_mem c0 hc))

theorem genField_log (field : String) (rowsFor : Nat → List (List ℚ)) :
    ∀ (cids : List Nat) (d : StoreData) (p : Nat × String),
    p ∈ (genField field rowsFor cids d).2 →
    p.2 = field ∧ p.1 ∈ cids ∧ d.disk field p.1 = none := by
  intro cids
  induction cids with
  | nil =>
    intro d p hp
    simp [genField] at hp
  | cons c0 t ih =>
    intro d p hp
    rw [genField_cons, genField_fold] at hp
    cases hd : d.disk field c0 with
    | some x =>
      have h2 : genStep field rowsFor (d, []) c0 = (d, []) := by
        simp [genStep, hd]
      rw [h2] at hp
      simp only [List.nil_append] at hp
      rcases ih d p hp with ⟨hf, hm, hn⟩
      exact ⟨hf, List.mem_cons_of_mem c0 hm, hn⟩
    | none =>
      have h2 : genStep field rowsFor (d, []) c0 =
          (diskWrite d field c0 (rowsFor c0), [(c0, field)]) := by
        simp [genStep, hd]
      rw [h2] at hp
      rcases List.mem_append.1 hp with hp0 | hp1
      · rcases List.mem_singleton.1 hp0 with rfl
        exact ⟨rfl, List.mem_cons_self c0 t, hd⟩
      · rcases ih _ p hp1 with ⟨hf, hm, hn⟩
        refine ⟨hf, List.mem_cons_of_mem c0 hm, ?_⟩
        by_cases hpc : p.1 = c0
        · exfalso
          rw [diskWrite] at hn
          simp only [hpc] at hn
          simp at hn
        · rw [diskWrite] at hn
          simpa [hpc] using hn

theorem generate_memory (m : RawModel) (chunk_size n_max exc : Nat)
    (d : StoreData) :
    (generate m chunk_size n_max exc d).1.memory = d.memory := by
  simp only [generate]
  rw [genField_memory, genField_memory, genField_memory]

theorem generate_fresh_disk (m : RawModel) (chunk_size n_max exc : Nat)
    (f : String) (c : Nat) :
    ((generate m chunk_size n_max exc emptyStore).1).disk f c =
      if f = "features" ∧ c ∈ clusterIds m.spike_clusters then
        some (featuresRows m chunk_size c)
      else if f = "masks" ∧ c ∈ clusterIds m.spike_clusters then
        some (masksRows m chunk_size c)
      else if f = "waveforms" ∧ c ∈ clusterIds m.spike_clusters then
        some (waveformsRows m n_max exc c)
      else none := by
  simp only [generate, genField_disk]
  by_cases hc : c ∈ clusterIds m.spike_clusters <;>
    by_cases hf1 : f = "features" <;>
      by_cases hf2 : f = "masks" <;>
        by_cases hf3 : f = "waveforms" <;>
          simp_all [emptyStore]

theorem generate_cached_after (m : RawModel) (chunk_size n_max exc : Nat)
    (d : StoreData) :
    ∀ c ∈ clusterIds m.spike_clusters,
      (((generate m chunk_size n_max exc d).1).disk "features" c).isSome ∧
      (((generate m chunk_size n_max exc d).1).disk "masks" c).isSome ∧
      (((generate m chunk_size n_max exc d).1).disk "waveforms" c).isSome := by
  intro c hc
  simp only [generate, genField_disk]
  refine ⟨?_, ?_, ?_⟩ <;> simp [hc]

theorem generate_all_cached (m : RawModel) (chunk_size n_max exc : Nat)
    (d : StoreData)
    (hf : ∀ c ∈ clusterIds m.spike_clusters, (d.disk "features" c).isSome)
    (hm : ∀ c ∈ clusterIds m.spike_clusters, (d.disk "masks" c).isSome)
    (hw : ∀ c ∈ clusterIds m.spike_clusters, (d.disk "waveforms" c).isSome) :
    generate m chunk_size n_max exc d = (d, []) := by
  have h1 : genField "features" (featuresRows m chunk_size)
      (clusterIds m.spike_clusters) d = (d, []) :=
    genField_all_cached _ _ _ d hf
  have h2 : genField "masks" (masksRows m chunk_size)
      (clusterIds m.spike_clusters) d = (d, []) :=
    genField_all_cached _ _ _ d hm
  have h3 : genField "waveforms" (waveformsRows m n_max exc)
      (clusterIds m.spike_clusters) d = (d, []) :=
    genField_all_cached _ _ _ d hw
  simp only [generate, h1, h2, h3]
  rfl

/-- C5: `generate` is idempotent — for every store state, running
`generate` a second time returns the exact same store (hence every
`load` result is identical) with an empty computation log, and every
computation the first run performs is for a (cluster, field) pair that
was not already cached. -/
theorem generate_idempotent (m : RawModel) (chunk_size n_max exc : Nat)
    (d : StoreData) :
    generate m chunk_size n_max exc
        (generate m chunk_size n_max exc d).1 =
      ((generate m chunk_size n_max exc d).1, []) ∧
    (∀ field cids, load_clusters
        (generate m chunk_size n_max exc
          (generate m chunk_size n_max exc d).1).1 field cids =
      load_clusters (generate m chunk_size n_max exc d).1 field cids) ∧
    (∀ p ∈ (generate m chunk_size n_max exc d).2,
      d.disk p.2 p.1 = none) := by
  have hcache := generate_cached_after m chunk_size n_max exc d
  have h1 : generate m chunk_size n_max exc
      (generate m chunk_size n_max exc d).1 =
      ((generate m chunk_size n_max exc d).1, []) :=
    generate_all_cached m chunk_size n_max exc _
      (fun c hc => (hcache c hc).1)
      (fun c hc => (hcache c hc).2.1)
      (fun c hc => (hcache c hc).2.2)
  refine ⟨h1, fun field cids => by rw [h1], ?_⟩
  intro p hp
  simp only [generate, List.mem_append] at hp
  rcases hp with (hp1 | hp2) | hp3
  · rcases genField_log _ _ _ _ _ hp1 with ⟨hf, _, hn⟩
    rw [hf]
    exact hn
  · rcases genField_log _ _ _ _ _ hp2 with ⟨hf, _, hn⟩
    rw [genField_disk] at hn
    rw [hf]
    by_cases hmem : "masks" = "features" ∧ p.1 ∈ clusterIds m.spike_clusters
    · rcases hmem with ⟨habs, _⟩
      exact absurd habs (by decide)
    · rw [if_neg hmem] at hn
      exact hn
  · rcases genField_log _ _ _ _ _ hp3 with ⟨hf, _, hn⟩
    rw [genField_disk] at hn
    rw [if_neg (fun hab => absurd hab.1 (by decide))] at hn
    rw [genField_disk] at hn
    rw [if_neg (fun hab => absurd hab.1 (by decide))] at hn
    rw [hf]
    exact hn

/-- C1: in the reference scenario (5 clusters, 100 spikes, 28 channels of
which 26 are kept, 2 features per channel, `features_masks_chunk_size =
15`), after `generate` on a fresh store `cs.features(cluster)` equals for
every cluster the raw `model.features` rows at that cluster's spike ids
reshaped to `(-1, 26, 2)` — so with shape `(n_spikes_in_cluster, 26, 2)` —
and `cs.masks(cluster)` equals the raw `model.masks` rows at that
cluster's spike ids. -/
theorem features_masks_roundtrip (m : RawModel)
    (hn : m.spike_clusters.length = 100)
    (hncl : (clusterIds m.spike_clusters).length = 5)
    (hfl : ∀ s < 100, (m.features s).length = 52) :
    ∀ c ∈ clusterIds m.spike_clusters,
      features_acc (generate m 15 5 2 emptyStore).1 2 c =
        some (((spikes_per_cluster m.spike_clusters c).map m.features).map
          (chunkList 2)) ∧
      (∃ arr, features_acc (generate m 15 5 2 emptyStore).1 2 c =
          some arr ∧
        arr.length = (spikes_per_cluster m.spike_clusters c).length ∧
        ∀ row ∈ arr, row.length = 26 ∧ ∀ grp ∈ row, grp.length = 2) ∧
      masks_acc (generate m 15 5 2 emptyStore).1 c =
        some ((spikes_per_cluster m.spike_clusters c).map m.masks) := by
  intro c hc
  have hfd : (generate m 15 5 2 emptyStore).1.disk "features" c =
      some (featuresRows m 15 c) := by
    rw [generate_fresh_disk]
    rw [if_pos ⟨rfl, hc⟩]
  have hmd : (generate m 15 5 2 emptyStore).1.disk "masks" c =
      some (masksRows m 15 c) := by
    rw [generate_fresh_disk]
    rw [if_neg (fun hab => absurd hab.1 (by decide))]
    rw [if_pos ⟨rfl, hc⟩]
  have hfeq : featuresRows m 15 c =
      (spikes_per_cluster m.spike_clusters c).map m.features :=
    chunkedClusterRows_eq _ _ _ _
  have hmeq : masksRows m 15 c =
      (spikes_per_cluster m.spike_clusters c).map m.masks :=
    chunkedClusterRows_eq _ _ _ _
  refine ⟨?_, ?_, ?_⟩
  · rw [features_acc, hfd, hfeq]
    rfl
  · refine ⟨((spikes_per_cluster m.spike_clusters c).map m.features).map
      (chunkList 2), ?_, ?_, ?_⟩
    · rw [features_acc, hfd, hfeq]
      rfl
    · rw [List.length_map, List.length_map]
    · intro row hrow
      rcases List.mem_map.1 hrow with ⟨r, hr, rfl⟩
      rcases List.mem_map.1 hr with ⟨s, hs, rfl⟩
      have hslt : s < 100 := by
        have hmem := ((mem_spikes_per_cluster _ _ _).1 hs).1
        omega
      have hrl : (m.features s).length = 52 := hfl s hslt
      have hdvd : 2 ∣ (m.features s).length := by
        rw [hrl]
        decide
      constructor
      · rw [chunkList_count 2 (by omega) _ hdvd, hrl]
      · intro grp hgrp
        exact chunkList_piece_length 2 (by omega) _ hdvd grp hgrp
  · rw [masks_acc, hmd, hmeq]

/-- A concrete 100-spike, 5-cluster recording used as witness input. -/
def demoModel : RawModel :=
  { spike_clusters := (List.range 100).map (fun i => i % 5),
    features := fun s => (List.range 52).map (fun j => (s : ℚ) + j),
    masks := fun s => (List.range 26).map (fun j => (s : ℚ) - j),
    waveforms := fun s => (List.range 6).map (fun j => (s : ℚ) * j) }

/-- Witness for C1 on the concrete reference-scenario recording
`demoModel`. -/
theorem features_masks_roundtrip_witness :
    demoModel.spike_clusters.length = 100 ∧
    (clusterIds demoModel.spike_clusters).length = 5 ∧
    (∀ s < 100, (demoModel.features s).length = 52) ∧
    ∀ c ∈ clusterIds demoModel.spike_clusters,
      features_acc (generate demoModel 15 5 2 emptyStore).1 2 c =
        some (((spikes_per_cluster demoModel.spike_clusters c).map
          demoModel.features).map (chunkList 2)) ∧
      (∃ arr, features_acc (generate demoModel 15 5 2 emptyStore).1 2 c =
          some arr ∧
        arr.length = (spikes_per_cluster demoModel.spike_clusters c).length ∧
        ∀ row ∈ arr, row.length = 26 ∧ ∀ grp ∈ row, grp.length = 2) ∧
      masks_acc (generate demoModel 15 5 2 emptyStore).1 c =
        some ((spikes_per_cluster demoModel.spike_clusters c).map
          demoModel.masks) :=
  ⟨by decide, by decide, by decide,
    features_masks_roundtrip demoModel (by decide) (by decide) (by decide)⟩

theorem excerptPositions_five_two (n : Nat) (hn : 5 < n) :
    excerptPositions n 5 2 = [0, 1, n - 2, n - 1] := by
  rw [excerptPositions, if_neg (by omega)]
  have hr2 : List.range 2 = [0, 1] := by decide
  have h1 : n - 2 + 1 = n - 1 := by omega
  norm_num [hr2, h1, Nat.div_one]

theorem spc_getD_lt (sc : List Nat) (c : Nat) (i j : Nat) (hij : i < j)
    (hj : j < (spikes_per_cluster sc c).length) :
    (spikes_per_cluster sc c).getD i 0 <
      (spikes_per_cluster sc c).getD j 0 := by
  have hs := spikes_per_cluster_sorted sc c
  rw [List.pairwise_iff_getElem] at hs
  rw [getD_eq_of_lt _ _ _ (lt_trans hij hj), getD_eq_of_lt _ _ _ hj]
  exact hs i j (lt_trans hij hj) hj hij

/-- C2: with `waveforms_n_spikes_max = 5` and `waveforms_excerpt_size =
2`, for every cluster with more than 5 spikes the Waveforms item
materializes a strict, strictly ascending subset of at most 5 spike ids
of that cluster, records exactly those ids in its own
`spikes_per_cluster` mapping (which therefore differs from the global
SpikeIndex), and `cs.waveforms(cluster)` equals `model.waveforms` indexed
by exactly those materialized spike ids. -/
theorem waveforms_excerpt (m : RawModel) (chunk_size : Nat) (c : Nat)
    (hc : c ∈ clusterIds m.spike_clusters)
    (hbig : 5 < (spikes_per_cluster m.spike_clusters c).length) :
    (waveformsSpc m.spike_clusters 5 2 c).length ≤ 5 ∧
    (waveformsSpc m.spike_clusters 5 2 c).length <
      (spikes_per_cluster m.spike_clusters c).length ∧
    (waveformsSpc m.spike_clusters 5 2 c).Pairwise (· < ·) ∧
    (∀ s ∈ waveformsSpc m.spike_clusters 5 2 c,
      s ∈ spikes_per_cluster m.spike_clusters c) ∧
    waveformsSpc m.spike_clusters 5 2 c ≠
      spikes_per_cluster m.spike_clusters c ∧
    waveforms_acc (generate m chunk_size 5 2 emptyStore).1 c =
      some ((waveformsSpc m.spike_clusters 5 2 c).map m.waveforms) := by
  have hmat : waveformsSpc m.spike_clusters 5 2 c =
      [(spikes_per_cluster m.spike_clusters c).getD 0 0,
       (spikes_per_cluster m.spike_clusters c).getD 1 0,
       (spikes_per_cluster m.spike_clusters c).getD
         ((spikes_per_cluster m.spike_clusters c).length - 2) 0,
       (spikes_per_cluster m.spike_clusters c).getD
         ((spikes_per_cluster m.spike_clusters c).length - 1) 0] := by
    rw [waveformsSpc, excerptPositions_five_two _ hbig]
    rfl
  have hlen4 : (waveformsSpc m.spike_clusters 5 2 c).length = 4 := by
    rw [hmat]
    rfl
  refine ⟨?_, ?_, ?_, ?_, ?_, ?_⟩
  · rw [hlen4]
    omega
  · rw [hlen4]
    omega
  · rw [hmat]
    refine List.Pairwise.cons ?_ (List.Pairwise.cons ?_
      (List.Pairwise.cons ?_ (List.pairwise_singleton _ _)))
    · intro b hb
      simp only [List.mem_cons, List.not_mem_nil, or_false] at hb
      rcases hb with rfl | rfl | rfl
      · exact spc_getD_lt _ _ 0 1 (by omega) (by omega)
      · exact spc_getD_lt _ _ 0 _ (by omega) (by omega)
      · exact spc_getD_lt _ _ 0 _ (by omega) (by omega)
    · intro b hb
      simp only [List.mem_cons, List.not_mem_nil, or_false] at hb
      rcases hb with rfl | rfl
      · exact spc_getD_lt _ _ 1 _ (by omega) (by omega)
      · exact spc_getD_lt _ _ 1 _ (by omega) (by omega)
    · intro b hb
      simp only [List.mem_cons, List.not_mem_nil, or_false] at hb
      rcases hb with rfl
      exact spc_getD_lt _ _ _ _ (by omega) (by omega)
  · intro s hs
    rw [hmat] at hs
    simp only [List.mem_cons, List.not_mem_nil, or_false] at hs
    rcases hs with rfl | rfl | rfl | rfl
    · exact getD_mem_of_lt _ _ _ (by omega)
    · exact getD_mem_of_lt _ _ _ (by omega)
    · exact getD_mem_of_lt _ _ _ (by omega)
    · exact getD_mem_of_lt _ _ _ (by omega)
  · intro heq
    have hlen := congrArg List.length heq
    rw [hlen4] at hlen
    omega
  · rw [waveforms_acc, generate_fresh_disk]
    rw [if_neg (fun hab => absurd hab.1 (by decide))]
    rw [if_neg (fun hab => absurd hab.1 (by decide))]
    rw [if_pos ⟨rfl, hc⟩]
    rfl

/-- A concrete recording with a single cluster of 20 spikes, used as
witness input for the excerpting claim. -/
def demoModel20 : RawModel :=
  { spike_clusters := List.replicate 20 0,
    features := fun s => [(s : ℚ)],
    masks := fun s => [(s : ℚ)],
    waveforms := fun s => [(s : ℚ), 2 * s] }

/-- Witness for C2: cluster 0 of `demoModel20` has 20 > 5 spikes. -/
theorem waveforms_excerpt_witness :
    0 ∈ clusterIds demoModel20.spike_clusters ∧
    5 < (spikes_per_cluster demoModel20.spike_clusters 0).length ∧
    ((waveformsSpc demoModel20.spike_clusters 5 2 0).length ≤ 5 ∧
    (waveformsSpc demoModel20.spike_clusters 5 2 0).length <
      (spikes_per_cluster demoModel20.spike_clusters 0).length ∧
    (waveformsSpc demoModel20.spike_clusters 5 2 0).Pairwise (· < ·) ∧
    (∀ s ∈ waveformsSpc demoModel20.spike_clusters 5 2 0,
      s ∈ spikes_per_cluster demoModel20.spike_clusters 0) ∧
    waveformsSpc demoModel20.spike_clusters 5 2 0 ≠
      spikes_per_cluster demoModel20.spike_clusters 0 ∧
    waveforms_acc (generate demoModel20 15 5 2 emptyStore).1 0 =
      some ((waveformsSpc demoModel20.spike_clusters 5 2 0).map
        demoModel20.waveforms)) :=
  ⟨by decide, by decide,
    waveforms_excerpt demoModel20 15 0 (by decide) (by decide)⟩

theorem mapM_eq_some {α β : Type} (f : α → Option β) (g : α → β) :
    ∀ (l : List α), (∀ a ∈ l, f a = some (g a)) →
    l.mapM f = some (l.map g) := by
  intro l
  induction l with
  | nil => intro _; rfl
  | cons a t ih =>
    intro h
    rw [List.mapM_cons, h a (List.mem_cons_self a t),
      ih (fun b hb => h b (List.mem_cons_of_mem a hb))]
    rfl

theorem rows_get_indexOf {β : Type} (l : List Nat) (w : Nat → β) (s : Nat)
    (hs : s ∈ l) : (l.map w).get? (l.indexOf s) = some (w s) := by
  rw [List.get?_eq_getElem?, List.getElem?_map, ← List.get?_eq_getElem?,
    List.indexOf_get? hs]
  rfl

theorem waveformsSpc_ne_nil_of_mem (sc : List Nat) (n_max exc c s : Nat)
    (hs : s ∈ waveformsSpc sc n_max exc c) :
    spikes_per_cluster sc c ≠ [] := by
  intro hnil
  rw [waveformsSpc, hnil] at hs
  simp [excerptPositions] at hs

theorem cluster_mem_of_spc_ne_nil (sc : List Nat) (c : Nat)
    (h : spikes_per_cluster sc c ≠ []) : c ∈ clusterIds sc := by
  rcases List.exists_mem_of_ne_nil _ h with ⟨i, hi⟩
  rcases (mem_spikes_per_cluster sc c i).1 hi with ⟨hlt, hgd⟩
  rw [clusterIds, List.mem_dedup, ← hgd]
  exact getD_mem_of_lt sc i 0 hlt

theorem generate_fresh_features (m : RawModel) (chunk_size n_max exc : Nat)
    (c : Nat) (hc : c ∈ clusterIds m.spike_clusters) :
    (generate m chunk_size n_max exc emptyStore).1.disk "features" c =
      some ((spikes_per_cluster m.spike_clusters c).map m.features) := by
  rw [generate_fresh_disk, if_pos ⟨rfl, hc⟩, featuresRows,
    chunkedClusterRows_eq]

theorem generate_fresh_masks (m : RawModel) (chunk_size n_max exc : Nat)
    (c : Nat) (hc : c ∈ clusterIds m.spike_clusters) :
    (generate m chunk_size n_max exc emptyStore).1.disk "masks" c =
      some ((spikes_per_cluster m.spike_clusters c).map m.masks) := by
  rw [generate_fresh_disk, if_neg (fun hab => absurd hab.1 (by decide)),
    if_pos ⟨rfl, hc⟩, masksRows, chunkedClusterRows_eq]

theorem generate_fresh_waveforms (m : RawModel) (chunk_size n_max exc : Nat)
    (c : Nat) (hc : c ∈ clusterIds m.spike_clusters) :
    (generate m chunk_size n_max exc emptyStore).1.disk "waveforms" c =
      some ((waveformsSpc m.spike_clusters n_max exc c).map m.waveforms) := by
  rw [generate_fresh_disk, if_neg (fun hab => absurd hab.1 (by decide)),
    if_neg (fun hab => absurd hab.1 (by decide)), if_pos ⟨rfl, hc⟩]
  rfl

/-- C4: after `generate` on a fresh store, `load(field, clusters=…)`
returns the per-cluster arrays concatenated in exactly the order in which
the cluster ids were supplied — not sorted order — for every disk-tier
field (`features`, `masks`, and `waveforms` with its materialized rows);
and `load(field, spikes=…)` returns rows in exactly the caller's supplied
spike order. -/
theorem load_order (m : RawModel) (chunk_size n_max exc : Nat)
    (cids sids wids : List Nat)
    (hcids : ∀ c ∈ cids, c ∈ clusterIds m.spike_clusters)
    (hsids : ∀ s ∈ sids, s < m.spike_clusters.length)
    (hwids : ∀ s ∈ wids, s ∈ waveformsSpc m.spike_clusters n_max exc
      (m.spike_clusters.getD s 0)) :
    load_clusters (generate m chunk_size n_max exc emptyStore).1
        "features" cids =
      some ((cids.map (fun c =>
        (spikes_per_cluster m.spike_clusters c).map m.features)).flatten) ∧
    load_clusters (generate m chunk_size n_max exc emptyStore).1
        "masks" cids =
      some ((cids.map (fun c =>
        (spikes_per_cluster m.spike_clusters c).map m.masks)).flatten) ∧
    load_clusters (generate m chunk_size n_max exc emptyStore).1
        "waveforms" cids =
      some ((cids.map (fun c =>
        (waveformsSpc m.spike_clusters n_max exc c).map
          m.waveforms)).flatten) ∧
    load_spikes (generate m chunk_size n_max exc emptyStore).1 "features"
        m.spike_clusters (spikes_per_cluster m.spike_clusters) sids =
      some (sids.map m.features) ∧
    load_spikes (generate m chunk_size n_max exc emptyStore).1 "masks"
        m.spike_clusters (spikes_per_cluster m.spike_clusters) sids =
      some (sids.map m.masks) ∧
    load_spikes (generate m chunk_size n_max exc emptyStore).1 "waveforms"
        m.spike_clusters (waveformsSpc m.spike_clusters n_max exc) wids =
      some (wids.map m.waveforms) := by
  refine ⟨?_, ?_, ?_, ?_, ?_, ?_⟩
  · rw [load_clusters, mapM_eq_some _
      (fun c => (spikes_per_cluster m.spike_clusters c).map m.features) _
      (fun c hcm => generate_fresh_features m chunk_size n_max exc c
        (hcids c hcm))]
    rfl
  · rw [load_clusters, mapM_eq_some _
      (fun c => (spikes_per_cluster m.spike_clusters c).map m.masks) _
      (fun c hcm => generate_fresh_masks m chunk_size n_max exc c
        (hcids c hcm))]
    rfl
  · rw [load_clusters, mapM_eq_some _
      (fun c => (waveformsSpc m.spike_clusters n_max exc c).map
        m.waveforms) _
      (fun c hcm => generate_fresh_waveforms m chunk_size n_max exc c
        (hcids c hcm))]
    rfl
  · rw [load_spikes]
    apply mapM_eq_some
    intro s hsm
    have hsl := hsids s hsm
    have hmem : s ∈ spikes_per_cluster m.spike_clusters
        (m.spike_clusters.getD s 0) :=
      (mem_spikes_per_cluster _ _ _).2 ⟨hsl, rfl⟩
    have hcm : m.spike_clusters.getD s 0 ∈ clusterIds m.spike_clusters :=
      cluster_mem_of_spc_ne_nil _ _
        (fun hnil => by rw [hnil] at hmem; exact List.not_mem_nil s hmem)
    rw [generate_fresh_features m chunk_size n_max exc _ hcm]
    rw [Option.some_bind]
    exact rows_get_indexOf _ m.features s hmem
  · rw [load_spikes]
    apply mapM_eq_some
    intro s hsm
    have hsl := hsids s hsm
    have hmem : s ∈ spikes_per_cluster m.spike_clusters
        (m.spike_clusters.getD s 0) :=
      (mem_spikes_per_cluster _ _ _).2 ⟨hsl, rfl⟩
    have hcm : m.spike_clusters.getD s 0 ∈ clusterIds m.spike_clusters :=
      cluster_mem_of_spc_ne_nil _ _
        (fun hnil => by rw [hnil] at hmem; exact List.not_mem_nil s hmem)
    rw [generate_fresh_masks m chunk_size n_max exc _ hcm]
    rw [Option.some_bind]
    exact rows_get_indexOf _ m.masks s hmem
  · rw [load_spikes]
    apply mapM_eq_some
    intro s hsm
    have hmemw := hwids s hsm
    have hcm : m.spike_clusters.getD s 0 ∈ clusterIds m.spike_clusters :=
      cluster_mem_of_spc_ne_nil _ _
        (waveformsSpc_ne_nil_of_mem _ _ _ _ _ hmemw)
    rw [generate_fresh_waveforms m chunk_size n_max exc _ hcm]
    rw [Option.some_bind]
    exact rows_get_indexOf _ m.waveforms s hmemw

/-- Witness for C4 on `demoModel`, with clusters supplied in the unsorted
order `[2, 0]` and spikes in the unsorted order `[5, 2]`; spike 3 is a
materialized waveform spike of its (20-spike) cluster 3. -/
theorem load_order_witness :
    (∀ c ∈ [2, 0], c ∈ clusterIds demoModel.spike_clusters) ∧
    (∀ s ∈ [5, 2], s < demoModel.spike_clusters.length) ∧
    (∀ s ∈ [3], s ∈ waveformsSpc demoModel.spike_clusters 5 2
      (demoModel.spike_clusters.getD s 0)) ∧
    (load_clusters (generate demoModel 15 5 2 emptyStore).1
        "features" [2, 0] =
      some (([2, 0].map (fun c =>
        (spikes_per_cluster demoModel.spike_clusters c).map
          demoModel.features)).flatten) ∧
    load_clusters (generate demoModel 15 5 2 emptyStore).1
        "masks" [2, 0] =
      some (([2, 0].map (fun c =>
        (spikes_per_cluster demoModel.spike_clusters c).map
          demoModel.masks)).flatten) ∧
    load_clusters (generate demoModel 15 5 2 emptyStore).1
        "waveforms" [2, 0] =
      some (([2, 0].map (fun c =>
        (waveformsSpc demoModel.spike_clusters 5 2 c).map
          demoModel.waveforms)).flatten) ∧
    load_spikes (generate demoModel 15 5 2 emptyStore).1 "features"
        demoModel.spike_clusters
        (spikes_per_cluster demoModel.spike_clusters) [5, 2] =
      some ([5, 2].map demoModel.features) ∧
    load_spikes (generate demoModel 15 5 2 emptyStore).1 "masks"
        demoModel.spike_clusters
        (spikes_per_cluster demoModel.spike_clusters) [5, 2] =
      some ([5, 2].map demoModel.masks) ∧
    load_spikes (generate demoModel 15 5 2 emptyStore).1 "waveforms"
        demoModel.spike_clusters
        (waveformsSpc demoModel.spike_clusters 5 2) [3] =
      some ([3].map demoModel.waveforms)) :=
  ⟨by decide, by decide, by decide,
    load_order demoModel 15 5 2 [2, 0] [5, 2] [3]
      (by decide) (by decide) (by decide)⟩

/-- Modelled from the spec (§4.4): a registered statistic computation — a
function from the store contents and a cluster id to the statistic
value. -/
def StatFn : Type := StoreData → Nat → Option (List ℚ)

/-- Modelled from the spec (§4.4, §4.5): the store state proper — the
two-tier cache plus the registry of statistic compute functions keyed by
field name. -/
structure StoreState where
  data : StoreData
  stats : List (String × StatFn)

/-- Writes one memory entry, leaving the disk tier untouched. -/
def memoryWrite (d : StoreData) (name : String) (c : Nat) (v : List ℚ) :
    StoreData :=
  ⟨d.disk, fun f c' => if f = name ∧ c' = c then some v else d.memory f c'⟩

/-- Modelled from the spec (§4.4): a statistic accessor — memory-tier,
computed lazily on first access and cached; an absent memory entry
triggers the registered computation and the result is stored. -/
def stat_get (st : StoreState) (name : String) (c : Nat) :
    Option (List ℚ) × StoreState :=
  match st.data.memory name c with
  | some v => (some v, st)
  | none =>
    match st.stats.lookup name with
    | none => (none, st)
    | some f =>
      match f st.data c with
      | none => (none, st)
      | some v => (some v, ⟨memoryWrite st.data name c v, st.stats⟩)

/-- Elementwise mean over rows (NumPy `.mean(axis=0)`), computed as a
zip-with-add reduction divided by the number of rows. -/
def vecMean (rows : List (List ℚ)) : List ℚ :=
  (rows.foldr (fun r acc => List.zipWith (fun x y => x + y) r acc)
    (List.replicate (rows.headD []).length 0)).map
    (fun x => x / (rows.length : ℚ))

/-- The `mean_masks` statistic: elementwise mean of the stored masks
rows. -/
def meanMasksFn : StatFn := fun d c => (d.disk "masks" c).map vecMean

/-- The `mean_waveforms` statistic: elementwise mean of the stored
(materialized) waveform rows. -/
def meanWaveformsFn : StatFn := fun d c =>
  (d.disk "waveforms" c).map vecMean

/-- The built-in Statistics item registry. -/
def builtinStats : List (String × StatFn) :=
  [("mean_masks", meanMasksFn), ("mean_waveforms", meanWaveformsFn)]

/-- `cs.items['statistics'].add` plus `cs.register_field`: registering a
new statistic by name after store creation (§4.4, §4.5). -/
def register_stat (st : StoreState) (name : String) (f : StatFn) :
    StoreState :=
  ⟨st.data, (name, f) :: st.stats⟩

/-- The reference elementwise mean: entry `j` is the sum of the rows'
`j`-th entries divided by the number of rows. -/
def meanSpec (rows : List (List ℚ)) (len : Nat) : List ℚ :=
  (List.range len).map (fun j =>
    (rows.map (fun r => r.getD j 0)).sum / (rows.length : ℚ))

theorem vecSum_length (len : Nat) :
    ∀ (rows : List (List ℚ)), (∀ r ∈ rows, r.length = len) →
    (rows.foldr (fun r acc => List.zipWith (fun x y => x + y) r acc)
      (List.replicate len 0)).length = len := by
  intro rows
  induction rows with
  | nil => intro _; simp
  | cons r t ih =>
    intro h
    rw [List.foldr_cons, List.length_zipWith,
      ih (fun r' hr' => h r' (List.mem_cons_of_mem r hr')),
      h r (List.mem_cons_self r t), Nat.min_self]

theorem vecSum_getD (len j : Nat) (hj : j < len) :
    ∀ (rows : List (List ℚ)), (∀ r ∈ rows, r.length = len) →
    (rows.foldr (fun r acc => List.zipWith (fun x y => x + y) r acc)
      (List.replicate len 0)).getD j 0 =
      (rows.map (fun r => r.getD j 0)).sum := by
  intro rows
  induction rows with
  | nil =>
    intro _
    simp [List.getD_eq_getElem?_getD, List.getElem?_replicate, hj]
  | cons r t ih =>
    intro h
    have hS : (t.foldr (fun r acc => List.zipWith (fun x y => x + y) r acc)
        (List.replicate len 0)).length = len :=
      vecSum_length len t (fun r' hr' => h r' (List.mem_cons_of_mem r hr'))
    have hr : r.length = len := h r (List.mem_cons_self r t)
    rw [List.foldr_cons]
    have hzl : (List.zipWith (fun x y => x + y) r
        (t.foldr (fun r acc => List.zipWith (fun x y => x + y) r acc)
          (List.replicate len 0))).length = len := by
      rw [List.length_zipWith, hr, hS, Nat.min_self]
    rw [getD_eq_of_lt _ j 0 (by rw [hzl]; exact hj)]
    rw [List.getElem_zipWith]
    rw [List.map_cons, List.sum_cons]
    rw [← ih (fun r' hr' => h r' (List.mem_cons_of_mem r hr'))]
    rw [getD_eq_of_lt r j 0 (by rw [hr]; exact hj),
      getD_eq_of_lt _ j 0 (by rw [hS]; exact hj)]

theorem vecMean_eq_meanSpec (rows : List (List ℚ)) (len : Nat)
    (hne : rows ≠ []) (hlen : ∀ r ∈ rows, r.length = len) :
    vecMean rows = meanSpec rows len := by
  have hhead : (rows.headD []).length = len := by
    cases rows with
    | nil => exact absurd rfl hne
    | cons r t => exact hlen r (List.mem_cons_self r t)
  have hS := vecSum_length len rows hlen
  apply List.ext_getElem
  · rw [vecMean, hhead, List.length_map, hS, meanSpec, List.length_map,
      List.length_range]
  · intro j h1 h2
    have hjlen : j < len := by
      rw [meanSpec, List.length_map, List.length_range] at h2
      exact h2
    simp only [vecMean, hhead, meanSpec, List.getElem_map,
      List.getElem_range]
    congr 1
    rw [← getD_eq_of_lt _ j 0 (by rw [hS]; exact hjlen)]
    exact vecSum_getD len j hjlen rows hlen

theorem spc_ne_nil_of_mem (sc : List Nat) (c : Nat)
    (hc : c ∈ clusterIds sc) : spikes_per_cluster sc c ≠ [] := by
  rw [clusterIds, List.mem_dedup] at hc
  rcases List.mem_iff_getElem.1 hc with ⟨i, hi, hgi⟩
  intro hnil
  have hm : i ∈ spikes_per_cluster sc c :=
    (mem_spikes_per_cluster sc c i).2
      ⟨hi, by rw [getD_eq_of_lt _ _ _ hi]; exact hgi⟩
  rw [hnil] at hm
  exact List.not_mem_nil i hm

theorem stat_get_compute (st : StoreState) (name : String) (c : Nat)
    (f : StatFn) (v : List ℚ)
    (hmem : st.data.memory name c = none)
    (hlook : st.stats.lookup name = some f)
    (hf : f st.data c = some v) :
    stat_get st name c =
      (some v, ⟨memoryWrite st.data name c v, st.stats⟩) := by
  simp only [stat_get, hmem, hlook, hf]

theorem waveformsSpc_mem_lt (sc : List Nat) (n_max exc c : Nat)
    (hspcne : spikes_per_cluster sc c ≠ []) :
    ∀ s ∈ waveformsSpc sc n_max exc c, s < sc.length := by
  intro s hs
  rw [waveformsSpc] at hs
  rcases List.mem_map.1 hs with ⟨p, _, rfl⟩
  by_cases hp : p < (spikes_per_cluster sc c).length
  · exact ((mem_spikes_per_cluster _ _ _).1 (getD_mem_of_lt _ p 0 hp)).1
  · push_neg at hp
    rw [List.getD_eq_getElem?_getD, List.getElem?_eq_none hp]
    rcases List.exists_mem_of_ne_nil _ hspcne with ⟨i, hi⟩
    have hilt := ((mem_spikes_per_cluster _ _ _).1 hi).1
    simpa using Nat.lt_of_le_of_lt (Nat.zero_le i) hilt

theorem lookup_mean_masks :
    List.lookup "mean_masks" builtinStats = some meanMasksFn := rfl

theorem lookup_mean_waveforms :
    List.lookup "mean_waveforms" builtinStats = some meanWaveformsFn := rfl

/-- C3: for every generated cluster, `cs.mean_masks(cluster)` equals the
elementwise mean over that cluster's masks rows, and
`cs.mean_waveforms(cluster)` equals the elementwise mean over that
cluster's materialized (excerpted) waveform rows. -/
theorem statistics_means (m : RawModel) (chunk_size n_max exc : Nat)
    (c : Nat) (len_m len_w : Nat)
    (hc : c ∈ clusterIds m.spike_clusters)
    (hmlen : ∀ s < m.spike_clusters.length, (m.masks s).length = len_m)
    (hwlen : ∀ s < m.spike_clusters.length, (m.waveforms s).length = len_w)
    (hwne : waveformsSpc m.spike_clusters n_max exc c ≠ []) :
    (stat_get ⟨(generate m chunk_size n_max exc emptyStore).1,
        builtinStats⟩ "mean_masks" c).1 =
      some (meanSpec
        ((spikes_per_cluster m.spike_clusters c).map m.masks) len_m) ∧
    (stat_get ⟨(generate m chunk_size n_max exc emptyStore).1,
        builtinStats⟩ "mean_waveforms" c).1 =
      some (meanSpec
        ((waveformsSpc m.spike_clusters n_max exc c).map m.waveforms)
        len_w) := by
  have hmem0 : ∀ nm : String,
      ((generate m chunk_size n_max exc emptyStore).1).memory nm c =
        none := by
    intro nm
    rw [generate_memory]
    rfl
  have hspcne := spc_ne_nil_of_mem m.spike_clusters c hc
  constructor
  · have hrows : meanMasksFn (generate m chunk_size n_max exc emptyStore).1
        c = some (vecMean
          ((spikes_per_cluster m.spike_clusters c).map m.masks)) := by
      show ((generate m chunk_size n_max exc emptyStore).1.disk
        "masks" c).map vecMean = _
      rw [generate_fresh_masks m chunk_size n_max exc c hc]
      rfl
    rw [stat_get_compute _ "mean_masks" c meanMasksFn _ (hmem0 _)
      lookup_mean_masks hrows]
    show some _ = some _
    congr 1
    apply vecMean_eq_meanSpec
    · intro hnil
      rw [List.map_eq_nil_iff] at hnil
      exact hspcne hnil
    · intro r hr
      rcases List.mem_map.1 hr with ⟨s, hs, rfl⟩
      exact hmlen s ((mem_spikes_per_cluster _ _ _).1 hs).1
  · have hrows : meanWaveformsFn
        (generate m chunk_size n_max exc emptyStore).1 c =
        some (vecMean ((waveformsSpc m.spike_clusters n_max exc c).map
          m.waveforms)) := by
      show ((generate m chunk_size n_max exc emptyStore).1.disk
        "waveforms" c).map vecMean = _
      rw [generate_fresh_waveforms m chunk_size n_max exc c hc]
      rfl
    rw [stat_get_compute _ "mean_waveforms" c meanWaveformsFn _ (hmem0 _)
      lookup_mean_waveforms hrows]
    show some _ = some _
    congr 1
    apply vecMean_eq_meanSpec
    · intro hnil
      rw [List.map_eq_nil_iff] at hnil
      exact hwne hnil
    · intro r hr
      rcases List.mem_map.1 hr with ⟨s, hs, rfl⟩
      exact hwlen s (waveformsSpc_mem_lt m.spike_clusters n_max exc c
        hspcne s hs)

/-- A small 3-spike, 2-cluster recording used as statistics witness. -/
def demoModel3 : RawModel :=
  { spike_clusters := [0, 0, 1],
    features := fun s => [(s : ℚ), s + 1],
    masks := fun s => [(s : ℚ), 2 * s],
    waveforms := fun s => [(s : ℚ), s * s] }

/-- Witness for C3 on `demoModel3`, cluster 0. -/
theorem statistics_means_witness :
    0 ∈ clusterIds demoModel3.spike_clusters ∧
    (∀ s < demoModel3.spike_clusters.length,
      (demoModel3.masks s).length = 2) ∧
    (∀ s < demoModel3.spike_clusters.length,
      (demoModel3.waveforms s).length = 2) ∧
    waveformsSpc demoModel3.spike_clusters 5 2 0 ≠ [] ∧
    ((stat_get ⟨(generate demoModel3 15 5 2 emptyStore).1, builtinStats⟩
        "mean_masks" 0).1 =
      some (meanSpec ((spikes_per_cluster demoModel3.spike_clusters 0).map
        demoModel3.masks) 2) ∧
    (stat_get ⟨(generate demoModel3 15 5 2 emptyStore).1, builtinStats⟩
        "mean_waveforms" 0).1 =
      some (meanSpec ((waveformsSpc demoModel3.spike_clusters 5 2 0).map
        demoModel3.waveforms) 2)) :=
  ⟨by decide, by decide, by decide, by decide,
    statistics_means demoModel3 15 5 2 0 2 2 (by decide) (by decide)
      (by decide) (by decide)⟩

/-- C6: registering a new statistic compute function after the store has
already run a full `generate`, then calling its accessor immediately,
returns exactly the value the compute function produces on the generated
store — without another bulk `generate` being needed (a subsequent
`generate` performs no computation at all) and without touching or
regenerating any disk-tier entry. -/
theorem register_stat_after_generate (m : RawModel)
    (chunk_size n_max exc : Nat) (name : String) (f : StatFn) (c : Nat)
    (v : List ℚ)
    (hv : f (generate m chunk_size n_max exc emptyStore).1 c = some v) :
    (stat_get (register_stat
        ⟨(generate m chunk_size n_max exc emptyStore).1, builtinStats⟩
        name f) name c).1 = some v ∧
    (∀ fl cl, (stat_get (register_stat
        ⟨(generate m chunk_size n_max exc emptyStore).1, builtinStats⟩
        name f) name c).2.data.disk fl cl =
      (generate m chunk_size n_max exc emptyStore).1.disk fl cl) ∧
    generate m chunk_size n_max exc
        (stat_get (register_stat
          ⟨(generate m chunk_size n_max exc emptyStore).1, builtinStats⟩
          name f) name c).2.data =
      ((stat_get (register_stat
        ⟨(generate m chunk_size n_max exc emptyStore).1, builtinStats⟩
        name f) name c).2.data, []) := by
  have hmem : (register_stat
      ⟨(generate m chunk_size n_max exc emptyStore).1, builtinStats⟩
      name f).data.memory name c = none := by
    show ((generate m chunk_size n_max exc emptyStore).1).memory name c =
      none
    rw [generate_memory]
    rfl
  have hlook : (register_stat
      ⟨(generate m chunk_size n_max exc emptyStore).1, builtinStats⟩
      name f).stats.lookup name = some f := by
    show List.lookup name ((name, f) :: builtinStats) = some f
    simp [List.lookup]
  have hcomp := stat_get_compute _ name c f v hmem hlook hv
  refine ⟨?_, ?_, ?_⟩
  · rw [hcomp]
  · intro fl cl
    rw [hcomp]
    rfl
  · rw [hcomp]
    apply generate_all_cached
    · intro c' hc'
      exact (generate_cached_after m chunk_size n_max exc emptyStore
        c' hc').1
    · intro c' hc'
      exact (generate_cached_after m chunk_size n_max exc emptyStore
        c' hc').2.1
    · intro c' hc'
      exact (generate_cached_after m chunk_size n_max exc emptyStore
        c' hc').2.2

/-- The test's custom statistic `mean_features_bis`: the mean of the
stored features rows. -/
def meanFeaturesBisFn : StatFn := fun d c =>
  (d.disk "features" c).map vecMean

theorem meanFeaturesBis_demo :
    meanFeaturesBisFn (generate demoModel3 15 5 2 emptyStore).1 0 =
      some [1/2, 3/2] := by
  show ((generate demoModel3 15 5 2 emptyStore).1.disk "features" 0).map
    vecMean = some [1/2, 3/2]
  rw [generate_fresh_features demoModel3 15 5 2 0 (by decide)]
  have hspc : spikes_per_cluster demoModel3.spike_clusters 0 = [0, 1] := by
    decide
  rw [hspc]
  show some (vecMean ([0, 1].map (fun s => [(s : ℚ), s + 1]))) = _
  norm_num [vecMean, List.zipWith]

/-- Witness for C6 on `demoModel3`: `mean_features_bis` registered after
`generate` returns the mean of cluster 0's feature rows immediately. -/
theorem register_stat_after_generate_witness :
    meanFeaturesBisFn (generate demoModel3 15 5 2 emptyStore).1 0 =
      some [1/2, 3/2] ∧
    ((stat_get (register_stat
        ⟨(generate demoModel3 15 5 2 emptyStore).1, builtinStats⟩
        "mean_features_bis" meanFeaturesBisFn)
        "mean_features_bis" 0).1 = some [1/2, 3/2] ∧
    (∀ fl cl, (stat_get (register_stat
        ⟨(generate demoModel3 15 5 2 emptyStore).1, builtinStats⟩
        "mean_features_bis" meanFeaturesBisFn)
        "mean_features_bis" 0).2.data.disk fl cl =
      (generate demoModel3 15 5 2 emptyStore).1.disk fl cl) ∧
    generate demoModel3 15 5 2
        (stat_get (register_stat
          ⟨(generate demoModel3 15 5 2 emptyStore).1, builtinStats⟩
          "mean_features_bis" meanFeaturesBisFn)
          "mean_features_bis" 0).2.data =
      ((stat_get (register_stat
        ⟨(generate demoModel3 15 5 2 emptyStore).1, builtinStats⟩
        "mean_features_bis" meanFeaturesBisFn)
        "mean_features_bis" 0).2.data, [])) :=
  ⟨meanFeaturesBis_demo, register_stat_after_generate demoModel3 15 5 2
    "mean_features_bis" meanFeaturesBisFn 0 [1/2, 3/2] meanFeaturesBis_demo⟩

end Phy
